import Mathlib

/-!
Verification development for the Oracle Storage API (`server.js`): a
file-backed JSON record store (questions) plus a blob store (uploaded
files), shallowly embedded in Lean.  Records are open JSON objects; the
filesystem is an explicit association list from file names (or path
segment lists) to contents.
-/

/-- A JSON value as handled by the server (records are open maps). -/
inductive Val where
  | str (s : String)
  | num (n : Int)
  | bool (b : Bool)
  | null
  | arr (xs : List Val)
  | obj (fs : List (String × Val))

/-- A JSON object: an ordered list of key/value pairs (JS objects have
unique keys; operations below preserve that when the input does). -/
abbrev Obj := List (String × Val)

/-- Property read `o[k]`: the value at the first entry with key `k`. -/
def Obj.get (o : Obj) (k : String) : Option Val :=
  (o.find? (fun e => e.1 == k)).map (fun e => e.2)

/-- Property assignment `o[k] = v`: replaces the value at the key's slot
in place when the key is present (JS keeps the key's position; JS objects
hold each key once), otherwise appends the new property. -/
def Obj.set : Obj → String → Val → Obj
  | [], k, v => [(k, v)]
  | e :: o, k, v => if e.1 == k then (k, v) :: o else e :: Obj.set o k v

/-- The keys of an object, in order. -/
def Obj.keys (o : Obj) : List String := o.map (fun e => e.1)

/-- Removes a key (models the net effect of assigning `undefined` and then
serializing with JSON.stringify, which drops such properties). -/
def Obj.erase (o : Obj) (k : String) : Obj :=
  o.filter (fun e => !(e.1 == k))

/-- JS spread merge `{...a, ...b}`: keys of `a` in order with values
overridden by `b` where present, then keys of `b` not in `a`. -/
def Obj.merge (a b : Obj) : Obj :=
  a.map (fun e =>
    match Obj.get b e.1 with
    | some w => (e.1, w)
    | none => e)
  ++ b.filter (fun e => !(Obj.get a e.1).isSome)

/-- JS truthiness of a value (absence is handled by `Option` outside). -/
def Val.truthy : Val → Bool
  | .str s => !s.data.isEmpty
  | .num n => n != 0
  | .bool b => b
  | .null => false
  | .arr _ => true
  | .obj _ => true

mutual
/-- JS template-literal stringification of a value. -/
def jsToString : Val → String
  | .str s => s
  | .num n => toString n
  | .bool true => "true"
  | .bool false => "false"
  | .null => "null"
  | .arr xs => String.intercalate "," (jsArr xs)
  | .obj _ => "[object Object]"

/-- Stringification of the elements of an array value. -/
def jsArr : List Val → List String
  | [] => []
  | v :: vs => jsToString v :: jsArr vs
end

/-- JS strict equality `v === s` between a (possibly absent) property
value and a string. -/
def isStrVal (v : Option Val) (s : String) : Bool :=
  match v with
  | some (Val.str t) => t == s
  | _ => false

/-- Content of a stored record file: a parseable JSON document, or bytes
on which `JSON.parse` throws. -/
inductive FileContent where
  | good (o : Obj)
  | malformed

/-- The questions directory: file name → file content, in listing order.
`JSON.stringify`/`JSON.parse` round-trip, so a written document is stored
as the object itself. -/
abbrev Store := List (String × FileContent)

/-- Reading a file by name (`fs.readFileSync` guarded by existence). -/
def lookupFile (s : Store) (fn : String) : Option FileContent :=
  (s.find? (fun e => e.1 == fn)).map (fun e => e.2)

/-- Models `fs.existsSync` on a file of the questions directory. -/
def hasFile (s : Store) (fn : String) : Bool :=
  (lookupFile s fn).isSome

/-- Models `fs.writeFileSync`: overwrites the file in place when it
exists, otherwise adds a new directory entry. -/
def setFile : Store → String → FileContent → Store
  | [], fn, c => [(fn, c)]
  | e :: s, fn, c => if e.1 == fn then (fn, c) :: s else e :: setFile s fn c

/-- Models `f.endsWith('.json')` from the directory-listing filters. -/
def endsWithJson (fn : String) : Bool :=
  fn.data.reverse.take 5 == ['n', 'o', 's', 'j', '.']

/-- The `.json` entries of the directory, in listing order
(`fs.readdirSync(...).filter(f => f.endsWith('.json'))`). -/
def jsonFiles (s : Store) : Store :=
  s.filter (fun e => endsWithJson e.1)

/-- Result of a read-style route on the question store. -/
inductive QResult where
  | notFound
  | internal
  | ok (o : Obj)

/-- Parses every file of a directory listing; the first malformed file
throws, which the route's catch turns into a 500 for the whole call. -/
def parseAll : Store → Except Unit (List Obj)
  | [] => Except.ok []
  | (_, FileContent.malformed) :: _ => Except.error ()
  | (_, FileContent.good o) :: rest => (parseAll rest).map (fun l => o :: l)

/-- The fixed projection used by `GET /questions`, in source order. -/
def summaryFields : List String :=
  ["_id", "title", "slug", "difficulty", "tags", "companies",
   "createdAt", "updatedAt"]

/-- The listing projection of one record: the eight metadata fields; a
field absent from the record is `undefined` and dropped by `res.json`. -/
def summary (o : Obj) : Obj :=
  summaryFields.filterMap (fun k => (Obj.get o k).map (fun v => (k, v)))

/-- `GET /questions`: scan the directory, parse every record, project
each to its metadata summary; any parse failure fails the whole call. -/
def listQuestions (s : Store) : Except Unit (List Obj) :=
  (parseAll (jsonFiles s)).map (fun l => l.map summary)

/-- `GET /questions/:id`: look up `<id>.json`; 404 when absent, 500 when
the stored bytes fail to parse. -/
def getQuestion (s : Store) (id : String) : QResult :=
  match lookupFile s (id ++ ".json") with
  | none => QResult.notFound
  | some FileContent.malformed => QResult.internal
  | some (FileContent.good o) => QResult.ok o

/-- The scan loop of `GET /questions/slug/:slug`: first record whose
`slug` field strictly equals the query wins; a malformed file reached
before a match throws (500). -/
def slugScan (slug : String) : Store → QResult
  | [] => QResult.notFound
  | (_, FileContent.malformed) :: _ => QResult.internal
  | (_, FileContent.good o) :: rest =>
    if isStrVal (Obj.get o "slug") slug then QResult.ok o
    else slugScan slug rest

/-- `GET /questions/slug/:slug` over the `.json` directory entries. -/
def getBySlug (s : Store) (slug : String) : QResult :=
  slugScan slug (jsonFiles s)

/-- The in-memory preparation of `POST /questions`: choose the identifier
(`questionData._id || random hex`), write it back, stamp
`createdAt = createdAt || now` and `updatedAt = now`.  Returns the
identifier (as it appears in the file name) and the document to write. -/
def stampCreate (body : Obj) (genId now : String) : String × Obj :=
  let idVal :=
    match Obj.get body "_id" with
    | some v => if Val.truthy v then v else Val.str genId
    | none => Val.str genId
  let b1 := Obj.set body "_id" idVal
  let b2 :=
    match Obj.get b1 "createdAt" with
    | some v =>
      if Val.truthy v then Obj.set b1 "createdAt" v
      else Obj.set b1 "createdAt" (Val.str now)
    | none => Obj.set b1 "createdAt" (Val.str now)
  let b3 := Obj.set b2 "updatedAt" (Val.str now)
  (jsToString idVal, b3)

/-- Outcome of `POST /questions`. -/
inductive CreateResult where
  | conflict
  | created (id : String)
  deriving DecidableEq

/-- `POST /questions`: stamp the body, then 409 if `<id>.json` already
exists (leaving the store untouched), else write the full document. -/
def createQuestion (s : Store) (body : Obj) (genId now : String) :
    CreateResult × Store :=
  let p := stampCreate body genId now
  let fn := p.1 ++ ".json"
  if hasFile s fn then (CreateResult.conflict, s)
  else (CreateResult.created p.1, setFile s fn (FileContent.good p.2))

/-- Outcome of `PUT /questions/:id`. -/
inductive UpdResult where
  | notFound
  | internal
  | ok (o : Obj)

/-- `PUT /questions/:id`: 404 when absent; otherwise read and parse the
existing document and write `{...existing, ...patch, _id: id,
createdAt: existing.createdAt, updatedAt: now}`.  When the existing
document has no `createdAt`, the explicit `undefined` property is dropped
by `JSON.stringify`, modelled by `Obj.erase`. -/
def updateQuestion (s : Store) (id : String) (patch : Obj) (now : String) :
    UpdResult × Store :=
  let fn := id ++ ".json"
  match lookupFile s fn with
  | none => (UpdResult.notFound, s)
  | some FileContent.malformed => (UpdResult.internal, s)
  | some (FileContent.good ex) =>
    let m1 := Obj.merge ex patch
    let m2 := Obj.set m1 "_id" (Val.str id)
    let m3 :=
      match Obj.get ex "createdAt" with
      | some v => Obj.set m2 "createdAt" v
      | none => Obj.erase m2 "createdAt"
    let m4 := Obj.set m3 "updatedAt" (Val.str now)
    (UpdResult.ok m4, setFile s fn (FileContent.good m4))

/-- The file name a bulk-imported record would be stored under:
`none` when `q._id` is absent or falsy (`if (!id) skipped++`), otherwise
`` `${id}.json` ``. -/
def bulkFile (q : Obj) : Option String :=
  match Obj.get q "_id" with
  | none => none
  | some v => if Val.truthy v then some (jsToString v ++ ".json") else none

/-- The loop of `POST /questions/bulk`.  `wfail fn = true` models
`fs.writeFileSync` throwing on that file; the exception escapes the loop
to the route's catch, which answers 500 with no counts, leaving every
earlier write on disk. -/
def bulkGo (wfail : String → Bool) (now : String) :
    List Obj → Store → Nat → Nat → Except Unit (Nat × Nat) × Store
  | [], s, c, k => (Except.ok (c, k), s)
  | q :: rest, s, c, k =>
    match bulkFile q with
    | none => bulkGo wfail now rest s c (k + 1)
    | some fn =>
      if hasFile s fn then bulkGo wfail now rest s c (k + 1)
      else if wfail fn then (Except.error (), s)
      else
        bulkGo wfail now rest
          (setFile s fn (FileContent.good (Obj.set q "updatedAt" (Val.str now))))
          (c + 1) k

/-- `POST /questions/bulk` on a decoded `questions` array. -/
def bulkImport (wfail : String → Bool) (now : String) (qs : List Obj)
    (s : Store) : Except Unit (Nat × Nat) × Store :=
  bulkGo wfail now qs s 0 0

/-- The store produced by successfully importing `qs` in order (each
record stamped with `updatedAt` only). -/
def bulkStore (now : String) (s : Store) (qs : List Obj) : Store :=
  qs.foldl
    (fun st q =>
      match bulkFile q with
      | some fn =>
        setFile st fn (FileContent.good (Obj.set q "updatedAt" (Val.str now)))
      | none => st)
    s

/-- Splits a string into its `/`-separated chunks (character-level, so
that concrete paths evaluate by `rfl`). -/
def splitAux : List Char → List Char → List (List Char)
  | [], cur => [cur.reverse]
  | ch :: cs, cur =>
    if ch == '/' then cur.reverse :: splitAux cs []
    else splitAux cs (ch :: cur)

/-- The non-empty segments of a POSIX path string. -/
def splitPath (s : String) : List String :=
  ((splitAux s.data []).map (fun cs => String.mk cs)).filter
    (fun seg => !(seg == ""))

/-- One step of POSIX path normalization as performed by `path.join`:
`.` is dropped, `..` pops the previous segment (kept when there is
nothing left to pop, as in a relative path). -/
def normStep (acc : List String) (seg : String) : List String :=
  if seg == "." then acc
  else if seg == ".." then
    match acc.getLast? with
    | some t => if t == ".." then acc ++ [".."] else acc.dropLast
    | none => [".."]
  else acc ++ [seg]

/-- Normalizes a segment sequence (`path.join`'s resolution of `.` and
`..`). -/
def normSegs (segs : List String) : List String :=
  segs.foldl normStep []

/-- `QUESTIONS_DIR = path.join('./data', 'questions')` as segments. -/
def questionsDir : List String :=
  normSegs (splitPath "./data/questions")

/-- The path composed by every record route:
`path.join(QUESTIONS_DIR, `${id}.json`)`, with no sanitization of `id`. -/
def recordPath (id : String) : List String :=
  normSegs (questionsDir ++ splitPath (id ++ ".json"))

/-- Whether `p` is strictly inside directory `dir` (a proper extension of
its segment list). -/
def withinDir (dir p : List String) : Bool :=
  p.take dir.length == dir && decide (dir.length < p.length)

/-- `DELETE /questions/:id` at the path level over a path-keyed file map:
`existsSync` then `unlinkSync` on the composed (unsanitized) path. -/
def deleteQuestionAtPath (files : List (List String × String))
    (id : String) : Option (List (List String × String)) :=
  let p := recordPath id
  if (files.find? (fun e => e.1 == p)).isSome then
    some (files.filter (fun e => !(e.1 == p)))
  else none

theorem Obj.get_nil (k : String) : Obj.get [] k = none := rfl

theorem Obj.get_cons (e : String × Val) (o : Obj) (k : String) :
    Obj.get (e :: o) k = if e.1 == k then some e.2 else Obj.get o k := by
  by_cases h : e.1 == k
  · simp [Obj.get, List.find?_cons_of_pos, h]
  · simp at h
    simp [Obj.get, List.find?_cons_of_neg, h]

theorem Obj.get_set_self (o : Obj) (k : String) (v : Val) :
    Obj.get (Obj.set o k v) k = some v := by
  induction o with
  | nil => simp [Obj.set, Obj.get_cons]
  | cons e o ih =>
    by_cases h : e.1 == k
    · simp [Obj.set, h, Obj.get_cons]
    · simp at h
      simp [Obj.set, h, Obj.get_cons, ih]

theorem Obj.get_set_ne (o : Obj) (k k' : String) (v : Val) (h : k' ≠ k) :
    Obj.get (Obj.set o k v) k' = Obj.get o k' := by
  induction o with
  | nil => simp [Obj.set, Obj.get_cons, Ne.symm h]
  | cons e o ih =>
    by_cases he : e.1 == k
    · simp at he
      subst he
      simp [Obj.set, Obj.get_cons, Ne.symm h]
    · simp at he
      simp [Obj.set, he, Obj.get_cons, ih]

theorem Obj.mem_keys_set (o : Obj) (k k' : String) (v : Val) :
    k' ∈ Obj.keys (Obj.set o k v) ↔ k' ∈ Obj.keys o ∨ k' = k := by
  induction o with
  | nil => simp [Obj.set, Obj.keys]
  | cons e o ih =>
    by_cases he : e.1 == k
    · simp at he
      subst he
      simp [Obj.set, Obj.keys]
      tauto
    · simp at he
      simp [Obj.set, he, Obj.keys] at ih ⊢
      tauto

theorem Obj.get_eq_none_iff (o : Obj) (k : String) :
    Obj.get o k = none ↔ k ∉ Obj.keys o := by
  induction o with
  | nil => simp [Obj.get_nil, Obj.keys]
  | cons e o ih =>
    by_cases h : e.1 = k
    · subst h
      simp [Obj.get_cons, Obj.keys]
    · simp [Obj.get_cons, h, Obj.keys, ih, Ne.symm h]

theorem Obj.find?_filter_fresh (b a : Obj) (k : String)
    (ha : Obj.get a k = none) :
    (b.filter (fun e => !(Obj.get a e.1).isSome)).find? (fun e => e.1 == k)
      = b.find? (fun e => e.1 == k) := by
  induction b with
  | nil => rfl
  | cons x b ih =>
    rw [List.filter_cons]
    by_cases hx : x.1 = k
    · have hkeep : (!(Obj.get a x.1).isSome) = true := by
        rw [hx, ha]
        rfl
      rw [if_pos hkeep]
      simp [hx]
    · have hnp : ¬((fun (e : String × Val) => e.1 == k) x = true) := by
        simp [hx]
      by_cases hk : (!(Obj.get a x.1).isSome) = true
      · rw [if_pos hk,
          @List.find?_cons_of_neg _ (fun (e : String × Val) => e.1 == k) x
            (List.filter (fun e => !(Obj.get a e.1).isSome) b) hnp,
          @List.find?_cons_of_neg _ (fun (e : String × Val) => e.1 == k) x b
            hnp, ih]
      · rw [if_neg hk,
          @List.find?_cons_of_neg _ (fun (e : String × Val) => e.1 == k) x b
            hnp, ih]

theorem Obj.get_merge (a b : Obj) (k : String) :
    Obj.get (Obj.merge a b) k = (Obj.get b k).or (Obj.get a k) := by
  have hpred :
      ((fun (e : String × Val) => e.1 == k) ∘ fun e =>
        match Obj.get b e.1 with
        | some w => (e.1, w)
        | none => e)
      = (fun (e : String × Val) => e.1 == k) := by
    funext e
    cases hb : Obj.get b e.1 with
    | none => simp [Function.comp, hb]
    | some w => simp [Function.comp, hb]
  have key : (Obj.merge a b).find? (fun e => e.1 == k)
      = ((a.find? (fun e => e.1 == k)).map (fun e =>
          match Obj.get b e.1 with
          | some w => (e.1, w)
          | none => e)).or
        ((b.filter (fun e => !(Obj.get a e.1).isSome)).find?
          (fun e => e.1 == k)) := by
    unfold Obj.merge
    rw [List.find?_append, List.find?_map, hpred]
  have hget : Obj.get (Obj.merge a b) k
      = ((Obj.merge a b).find? (fun e => e.1 == k)).map (fun e => e.2) := rfl
  rw [hget, key]
  cases hfa : a.find? (fun e => e.1 == k) with
  | some e =>
    have hek : e.1 = k := by
      have := List.find?_some hfa
      simpa using this
    have hga : Obj.get a k = some e.2 := by
      unfold Obj.get
      rw [hfa]
      rfl
    rw [hga]
    subst hek
    cases hb : Obj.get b e.1 with
    | none => simp [hb, Option.or_some]
    | some w => simp [hb, Option.or_some]
  | none =>
    have hga : Obj.get a k = none := by
      unfold Obj.get
      rw [hfa]
      rfl
    rw [hga, Obj.find?_filter_fresh b a k hga, Option.or_none]
    rfl

theorem lookupFile_cons (e : String × FileContent) (s : Store) (fn : String) :
    lookupFile (e :: s) fn
      = if e.1 == fn then some e.2 else lookupFile s fn := by
  by_cases h : e.1 == fn
  · simp [lookupFile, List.find?_cons_of_pos, h]
  · simp at h
    simp [lookupFile, List.find?_cons_of_neg, h]

theorem lookupFile_setFile_self (s : Store) (fn : String) (c : FileContent) :
    lookupFile (setFile s fn c) fn = some c := by
  induction s with
  | nil => simp [setFile, lookupFile_cons]
  | cons e s ih =>
    by_cases h : e.1 == fn
    · simp [setFile, h, lookupFile_cons]
    · simp at h
      simp [setFile, h, lookupFile_cons, ih]

theorem lookupFile_setFile_ne (s : Store) (fn g : String) (c : FileContent)
    (h : g ≠ fn) :
    lookupFile (setFile s fn c) g = lookupFile s g := by
  induction s with
  | nil => simp [setFile, lookupFile_cons, Ne.symm h, lookupFile]
  | cons e s ih =>
    by_cases he : e.1 == fn
    · simp at he
      subst he
      simp [setFile, lookupFile_cons, Ne.symm h]
    · simp at he
      simp [setFile, he, lookupFile_cons, ih]

theorem hasFile_setFile (s : Store) (fn g : String) (c : FileContent) :
    hasFile (setFile s fn c) g = (g == fn || hasFile s g) := by
  by_cases h : g = fn
  · subst h
    simp [hasFile, lookupFile_setFile_self]
  · simp [hasFile, lookupFile_setFile_ne s fn g c h, h]

/-- C1: refuted on the code.  The record routes compose
`path.join(QUESTIONS_DIR, id + ".json")` with no sanitization, so the
identifier `../evil` resolves to `data/evil.json`, outside the questions
directory, and the delete route removes that outside file. -/
theorem recordPath_traversal_bug :
    recordPath "../evil" = ["data", "evil.json"] ∧
    withinDir questionsDir (recordPath "../evil") = false ∧
    deleteQuestionAtPath [(["data", "evil.json"], "secret")] "../evil"
      = some [] :=
  ⟨rfl, rfl, rfl⟩

/-- C2: a second create for an existing identifier answers 409 and leaves
the store (hence the first record's bytes) unchanged; a create for a
fresh identifier writes the full stamped document. -/
theorem create_duplicate_conflict (s : Store) (body : Obj)
    (genId now id : String) (b : Obj)
    (hst : stampCreate body genId now = (id, b)) :
    (hasFile s (id ++ ".json") = true →
      createQuestion s body genId now = (CreateResult.conflict, s)) ∧
    (hasFile s (id ++ ".json") = false →
      createQuestion s body genId now
        = (CreateResult.created id,
           setFile s (id ++ ".json") (FileContent.good b))) := by
  constructor <;> intro h <;> simp [createQuestion, hst, h]

/-- C2 witness: with `a.json` already stored, re-creating `_id = "a"`
conflicts and leaves the store untouched. -/
theorem create_duplicate_conflict_w :
    hasFile [("a.json", FileContent.good [("_id", Val.str "a")])] ("a" ++ ".json")
      = true ∧
    createQuestion [("a.json", FileContent.good [("_id", Val.str "a")])]
      [("_id", Val.str "a")] "g" "N"
      = (CreateResult.conflict,
         [("a.json", FileContent.good [("_id", Val.str "a")])]) :=
  ⟨rfl,
   (create_duplicate_conflict
     [("a.json", FileContent.good [("_id", Val.str "a")])]
     [("_id", Val.str "a")] "g" "N" "a"
     [("_id", Val.str "a"), ("createdAt", Val.str "N"),
      ("updatedAt", Val.str "N")] rfl).1 rfl⟩

/-- C9 counterexample: a creation payload that does contain `createdAt`
(with the falsy value `""`) is stored with `createdAt = now`, not with
the caller-supplied value. -/
theorem create_createdAt_falsy_cex :
    createQuestion [] [("_id", Val.str "q1"), ("createdAt", Val.str "")]
      "g" "NOW"
      = (CreateResult.created "q1",
         [("q1.json", FileContent.good
           [("_id", Val.str "q1"), ("createdAt", Val.str "NOW"),
            ("updatedAt", Val.str "NOW")])]) ∧
    Val.str "NOW" ≠ Val.str "" :=
  ⟨rfl, by
    intro h
    injection h with h2
    exact absurd h2 (by decide)⟩

/-- C9 (amended): create keeps a truthy caller-supplied `createdAt`
unchanged, replaces an absent or falsy one with the current timestamp,
and always sets `updatedAt` to the current timestamp. -/
theorem create_createdAt_stamp (body : Obj) (genId now id : String) (b : Obj)
    (hst : stampCreate body genId now = (id, b)) :
    Obj.get b "createdAt"
      = (match Obj.get body "createdAt" with
         | some v => if Val.truthy v then some v else some (Val.str now)
         | none => some (Val.str now)) ∧
    Obj.get b "updatedAt" = some (Val.str now) := by
  have hb : b = (stampCreate body genId now).2 := by rw [hst]
  subst hb
  simp only [stampCreate]
  constructor
  · rw [Obj.get_set_ne _ _ _ _ (by decide)]
    rw [Obj.get_set_ne body "_id" "createdAt" _ (by decide)]
    cases hcb : Obj.get body "createdAt" with
    | none => rw [Obj.get_set_self]
    | some v =>
      dsimp only
      by_cases ht : Val.truthy v
      · rw [if_pos ht, Obj.get_set_self, if_pos ht]
      · rw [if_neg ht, Obj.get_set_self, if_neg ht]
  · rw [Obj.get_set_self]

/-- C9 witness: a truthy `createdAt` is stored unchanged while
`updatedAt` is stamped. -/
theorem create_createdAt_stamp_w :
    stampCreate [("createdAt", Val.str "2020")] "g" "NOW"
      = ("g", [("createdAt", Val.str "2020"), ("_id", Val.str "g"),
               ("updatedAt", Val.str "NOW")]) ∧
    Obj.get [("createdAt", Val.str "2020"), ("_id", Val.str "g"),
             ("updatedAt", Val.str "NOW")] "createdAt"
      = some (Val.str "2020") ∧
    Obj.get [("createdAt", Val.str "2020"), ("_id", Val.str "g"),
             ("updatedAt", Val.str "NOW")] "updatedAt"
      = some (Val.str "NOW") := by
  refine ⟨rfl, ?_, ?_⟩
  · exact (create_createdAt_stamp [("createdAt", Val.str "2020")] "g" "NOW"
      "g" _ rfl).1
  · exact (create_createdAt_stamp [("createdAt", Val.str "2020")] "g" "NOW"
      "g" _ rfl).2

theorem stampCreate_shape (F : Obj) (genId now : String) :
    ∃ v1 v2, (stampCreate F genId now).2
      = Obj.set (Obj.set (Obj.set F "_id" v1) "createdAt" v2) "updatedAt"
          (Val.str now) := by
  simp only [stampCreate]
  cases hcb :
      Obj.get
        (Obj.set F "_id"
          (match Obj.get F "_id" with
           | some v => if Val.truthy v then v else Val.str genId
           | none => Val.str genId))
        "createdAt" with
  | none => exact ⟨_, _, rfl⟩
  | some v =>
    dsimp only
    by_cases ht : Val.truthy v
    · rw [if_pos ht]
      exact ⟨_, _, rfl⟩
    · rw [if_neg ht]
      exact ⟨_, _, rfl⟩

/-- C3: update shallow-merges the patch over the stored document; patch
fields overwrite, absent fields are preserved, and `_id`, `createdAt` are
forced back to their stored values whatever the patch contains, while
`updatedAt` is restamped. -/
theorem update_preserves_identity (s s' : Store) (id now : String)
    (patch ex r : Obj) (k : String)
    (hex : lookupFile s (id ++ ".json") = some (FileContent.good ex))
    (hid : Obj.get ex "_id" = some (Val.str id))
    (hca : (Obj.get ex "createdAt").isSome = true)
    (hu : updateQuestion s id patch now = (UpdResult.ok r, s')) :
    Obj.get r "_id" = Obj.get ex "_id" ∧
    Obj.get r "createdAt" = Obj.get ex "createdAt" ∧
    Obj.get r "updatedAt" = some (Val.str now) ∧
    (k ≠ "_id" → k ≠ "createdAt" → k ≠ "updatedAt" →
      Obj.get r k = (Obj.get patch k).or (Obj.get ex k)) ∧
    s' = setFile s (id ++ ".json") (FileContent.good r) := by
  obtain ⟨c, hc⟩ := Option.isSome_iff_exists.mp hca
  simp only [updateQuestion, hex, hc] at hu
  rw [Prod.mk.injEq] at hu
  obtain ⟨hr, hs⟩ := hu
  injection hr with hr
  subst hr
  subst hs
  refine ⟨?_, ?_, ?_, ?_, rfl⟩
  · rw [Obj.get_set_ne _ _ _ _ (by decide),
      Obj.get_set_ne _ _ _ _ (by decide), Obj.get_set_self, hid]
  · rw [Obj.get_set_ne _ _ _ _ (by decide), Obj.get_set_self, hc]
  · rw [Obj.get_set_self]
  · intro h1 h2 h3
    rw [Obj.get_set_ne _ _ _ _ h3, Obj.get_set_ne _ _ _ _ h2,
      Obj.get_set_ne _ _ _ _ h1, Obj.get_merge]

/-- C3 witness: patching `title` (and attempting to override `_id` and
`createdAt`) on a stored record changes only `title` and `updatedAt`. -/
theorem update_preserves_identity_w :
    updateQuestion
      [("q.json", FileContent.good
        [("_id", Val.str "q"), ("title", Val.str "old"),
         ("createdAt", Val.str "2020")])]
      "q"
      [("title", Val.str "X"), ("_id", Val.str "evil"),
       ("createdAt", Val.str "2099")]
      "NOW"
      = (UpdResult.ok
          [("_id", Val.str "q"), ("title", Val.str "X"),
           ("createdAt", Val.str "2020"), ("updatedAt", Val.str "NOW")],
         [("q.json", FileContent.good
           [("_id", Val.str "q"), ("title", Val.str "X"),
            ("createdAt", Val.str "2020"), ("updatedAt", Val.str "NOW")])]) ∧
    Obj.get [("_id", Val.str "q"), ("title", Val.str "X"),
             ("createdAt", Val.str "2020"), ("updatedAt", Val.str "NOW")]
        "title"
      = (Obj.get [("title", Val.str "X"), ("_id", Val.str "evil"),
                  ("createdAt", Val.str "2099")] "title").or
          (Obj.get [("_id", Val.str "q"), ("title", Val.str "old"),
                    ("createdAt", Val.str "2020")] "title") ∧
    Obj.get [("_id", Val.str "q"), ("title", Val.str "X"),
             ("createdAt", Val.str "2020"), ("updatedAt", Val.str "NOW")]
        "_id"
      = Obj.get [("_id", Val.str "q"), ("title", Val.str "old"),
                 ("createdAt", Val.str "2020")] "_id" := by
  have h := update_preserves_identity
    [("q.json", FileContent.good
      [("_id", Val.str "q"), ("title", Val.str "old"),
       ("createdAt", Val.str "2020")])]
    [("q.json", FileContent.good
      [("_id", Val.str "q"), ("title", Val.str "X"),
       ("createdAt", Val.str "2020"), ("updatedAt", Val.str "NOW")])]
    "q" "NOW"
    [("title", Val.str "X"), ("_id", Val.str "evil"),
     ("createdAt", Val.str "2099")]
    [("_id", Val.str "q"), ("title", Val.str "old"),
     ("createdAt", Val.str "2020")]
    [("_id", Val.str "q"), ("title", Val.str "X"),
     ("createdAt", Val.str "2020"), ("updatedAt", Val.str "NOW")]
    "title" rfl rfl rfl rfl
  exact ⟨rfl, h.2.2.2.1 (by decide) (by decide) (by decide), h.1⟩

/-- C4: creating a record with fields F and immediately getting it by its
identifier returns exactly F plus the stamped `_id`, `createdAt`,
`updatedAt`, with all other field values unchanged. -/
theorem create_get_roundtrip (s : Store) (F : Obj) (genId now id : String)
    (b : Obj) (res : CreateResult) (s' : Store) (k : String)
    (hst : stampCreate F genId now = (id, b))
    (hfresh : hasFile s (id ++ ".json") = false)
    (hc : createQuestion s F genId now = (res, s')) :
    res = CreateResult.created id ∧
    getQuestion s' id = QResult.ok b ∧
    (k ∈ Obj.keys b ↔
      (k ∈ Obj.keys F ∨ k = "_id" ∨ k = "createdAt" ∨ k = "updatedAt")) ∧
    (k ≠ "_id" → k ≠ "createdAt" → k ≠ "updatedAt" →
      Obj.get b k = Obj.get F k) := by
  have h2 := (create_duplicate_conflict s F genId now id b hst).2 hfresh
  rw [h2, Prod.mk.injEq] at hc
  obtain ⟨hres, hs⟩ := hc
  obtain ⟨v1, v2, hshape⟩ := stampCreate_shape F genId now
  have hb : b
      = ((F.set "_id" v1).set "createdAt" v2).set "updatedAt"
          (Val.str now) := by
    rw [← hshape, hst]
  refine ⟨hres.symm, ?_, ?_, ?_⟩
  · rw [← hs]
    unfold getQuestion
    rw [lookupFile_setFile_self]
  · rw [hb, Obj.mem_keys_set, Obj.mem_keys_set, Obj.mem_keys_set]
    tauto
  · intro h1 h2 h3
    rw [hb, Obj.get_set_ne _ _ _ _ h3, Obj.get_set_ne _ _ _ _ h2,
      Obj.get_set_ne _ _ _ _ h1]

/-- C4 witness: create-then-get round-trips a record with a `title` and a
`testCases` field, adding exactly the three stamped fields. -/
theorem create_get_roundtrip_w :
    getQuestion
      [("g.json", FileContent.good
        [("title", Val.str "t"), ("testCases", Val.arr [Val.str "tc"]),
         ("_id", Val.str "g"), ("createdAt", Val.str "N"),
         ("updatedAt", Val.str "N")])] "g"
      = QResult.ok
        [("title", Val.str "t"), ("testCases", Val.arr [Val.str "tc"]),
         ("_id", Val.str "g"), ("createdAt", Val.str "N"),
         ("updatedAt", Val.str "N")] ∧
    ("title" ∈ Obj.keys
        [("title", Val.str "t"), ("testCases", Val.arr [Val.str "tc"]),
         ("_id", Val.str "g"), ("createdAt", Val.str "N"),
         ("updatedAt", Val.str "N")] ↔
      ("title" ∈ Obj.keys
          [("title", Val.str "t"), ("testCases", Val.arr [Val.str "tc"])] ∨
        "title" = "_id" ∨ "title" = "createdAt" ∨ "title" = "updatedAt")) ∧
    Obj.get
        [("title", Val.str "t"), ("testCases", Val.arr [Val.str "tc"]),
         ("_id", Val.str "g"), ("createdAt", Val.str "N"),
         ("updatedAt", Val.str "N")] "title"
      = Obj.get
          [("title", Val.str "t"), ("testCases", Val.arr [Val.str "tc"])]
          "title" := by
  have h := create_get_roundtrip []
    [("title", Val.str "t"), ("testCases", Val.arr [Val.str "tc"])]
    "g" "N" "g"
    [("title", Val.str "t"), ("testCases", Val.arr [Val.str "tc"]),
     ("_id", Val.str "g"), ("createdAt", Val.str "N"),
     ("updatedAt", Val.str "N")]
    (CreateResult.created "g")
    [("g.json", FileContent.good
      [("title", Val.str "t"), ("testCases", Val.arr [Val.str "tc"]),
       ("_id", Val.str "g"), ("createdAt", Val.str "N"),
       ("updatedAt", Val.str "N")])]
    "title" rfl rfl rfl
  exact ⟨h.2.1, h.2.2.1,
    h.2.2.2 (by decide) (by decide) (by decide)⟩

theorem mem_keys_summary (o : Obj) (k : String) :
    k ∈ Obj.keys (summary o) → k ∈ summaryFields := by
  intro h
  rcases List.mem_map.mp h with ⟨e, he, hek⟩
  rcases List.mem_filterMap.mp he with ⟨kk, hkk, hmap⟩
  cases hg : Obj.get o kk with
  | none =>
    rw [hg] at hmap
    cases hmap
  | some v =>
    rw [hg] at hmap
    injection hmap with hmap
    rw [← hek, ← hmap]
    exact hkk

/-- C7: every entry of the listing projection carries only the eight
metadata fields; in particular it never has a `testCases` key. -/
theorem list_excludes_testcases (s : Store) (out : List Obj) (e : Obj)
    (k : String)
    (h : listQuestions s = Except.ok out) (he : e ∈ out) :
    (k ∈ Obj.keys e → k ∈ summaryFields) ∧
    Obj.get e "testCases" = none := by
  unfold listQuestions at h
  cases hp : parseAll (jsonFiles s) with
  | error u =>
    rw [hp] at h
    cases h
  | ok objs =>
    rw [hp] at h
    injection h with h
    rw [← h] at he
    rcases List.mem_map.mp he with ⟨o, ho, rfl⟩
    constructor
    · exact mem_keys_summary o k
    · rw [Obj.get_eq_none_iff]
      intro hmem
      have hin := mem_keys_summary o "testCases" hmem
      simp [summaryFields] at hin

/-- C7 witness: a record stored with a non-empty `testCases` field lists
as a summary whose keys are metadata only and which has no `testCases`. -/
theorem list_excludes_testcases_w :
    listQuestions
      [("q.json", FileContent.good
        [("_id", Val.str "q"), ("title", Val.str "T"),
         ("testCases", Val.arr [Val.str "x"])])]
      = Except.ok [[("_id", Val.str "q"), ("title", Val.str "T")]] ∧
    ("_id" ∈ Obj.keys [("_id", Val.str "q"), ("title", Val.str "T")] →
      "_id" ∈ summaryFields) ∧
    Obj.get [("_id", Val.str "q"), ("title", Val.str "T")] "testCases"
      = none := by
  have h := list_excludes_testcases
    [("q.json", FileContent.good
      [("_id", Val.str "q"), ("title", Val.str "T"),
       ("testCases", Val.arr [Val.str "x"])])]
    [[("_id", Val.str "q"), ("title", Val.str "T")]]
    [("_id", Val.str "q"), ("title", Val.str "T")]
    "_id" rfl (List.mem_singleton.mpr rfl)
  exact ⟨rfl, h.1, h.2⟩

theorem parseAll_error_of_mem (l : Store) (fn : String)
    (h : (fn, FileContent.malformed) ∈ l) :
    parseAll l = Except.error () := by
  induction l with
  | nil => cases h
  | cons x rest ih =>
    match x with
    | (g, FileContent.malformed) => rfl
    | (g, FileContent.good o) =>
      have hr : (fn, FileContent.malformed) ∈ rest := by
        rcases List.mem_cons.mp h with h1 | h1
        · cases h1
        · exact h1
      show (parseAll rest).map (fun l => o :: l) = Except.error ()
      rw [ih hr]
      rfl

theorem slugScan_internal (pre rest : Store) (slug fn : String)
    (hpre : ∀ e ∈ pre, ∀ o : Obj, e.2 = FileContent.good o →
      isStrVal (Obj.get o "slug") slug = false) :
    slugScan slug (pre ++ (fn, FileContent.malformed) :: rest)
      = QResult.internal := by
  induction pre with
  | nil => rfl
  | cons x pre ih =>
    match x with
    | (g, FileContent.malformed) => rfl
    | (g, FileContent.good o) =>
      have hm : isStrVal (Obj.get o "slug") slug = false :=
        hpre (g, FileContent.good o) (List.mem_cons_self _ _) o rfl
      show (if isStrVal (Obj.get o "slug") slug then QResult.ok o
        else slugScan slug (pre ++ (fn, FileContent.malformed) :: rest))
        = QResult.internal
      rw [hm]
      exact ih (fun e he oo hgo => hpre e (List.mem_cons_of_mem _ he) oo hgo)

/-- C8: one malformed stored file makes the listing fail as a whole with
an Internal error, and makes the slug lookup fail with Internal whenever
the malformed file is scanned before any match. -/
theorem malformed_fails_scan (s : Store) (slug fn : String)
    (pre rest : Store)
    (hsplit : jsonFiles s = pre ++ (fn, FileContent.malformed) :: rest)
    (hpre : ∀ e ∈ pre, ∀ o : Obj, e.2 = FileContent.good o →
      isStrVal (Obj.get o "slug") slug = false) :
    listQuestions s = Except.error () ∧
    getBySlug s slug = QResult.internal := by
  constructor
  · unfold listQuestions
    rw [hsplit,
      parseAll_error_of_mem _ fn
        (List.mem_append_right _ (List.mem_cons_self _ _))]
    rfl
  · unfold getBySlug
    rw [hsplit]
    exact slugScan_internal pre rest slug fn hpre

/-- C8 witness: with a non-matching good record followed by a malformed
file, both the listing and the slug lookup answer Internal. -/
theorem malformed_fails_scan_w :
    listQuestions
      [("a.json", FileContent.good [("slug", Val.str "a")]),
       ("bad.json", FileContent.malformed)]
      = Except.error () ∧
    getBySlug
      [("a.json", FileContent.good [("slug", Val.str "a")]),
       ("bad.json", FileContent.malformed)]
      "zzz" = QResult.internal := by
  refine malformed_fails_scan _ "zzz" "bad.json"
    [("a.json", FileContent.good [("slug", Val.str "a")])] [] rfl ?_
  intro e he o hgo
  rw [List.mem_singleton] at he
  subst he
  injection hgo with hgo
  subst hgo
  rfl

theorem hasFile_bulkStore_mono (now : String) (qs : List Obj) (s : Store)
    (g : String) (h : hasFile s g = true) :
    hasFile (bulkStore now s qs) g = true := by
  induction qs generalizing s with
  | nil => exact h
  | cons x qs ih =>
    cases hx : bulkFile x with
    | none =>
      show hasFile (bulkStore now
        (match bulkFile x with
         | some fn =>
           setFile s fn (FileContent.good (Obj.set x "updatedAt" (Val.str now)))
         | none => s) qs) g = true
      rw [hx]
      exact ih s h
    | some fn =>
      show hasFile (bulkStore now
        (match bulkFile x with
         | some fn =>
           setFile s fn (FileContent.good (Obj.set x "updatedAt" (Val.str now)))
         | none => s) qs) g = true
      rw [hx]
      refine ih _ ?_
      rw [hasFile_setFile]
      simp [h]

theorem hasFile_bulkStore_of_mem (now : String) (qs : List Obj) (s : Store)
    (q : Obj) (fn : String) (hq : q ∈ qs) (hfn : bulkFile q = some fn) :
    hasFile (bulkStore now s qs) fn = true := by
  induction qs generalizing s with
  | nil => cases hq
  | cons x qs ih =>
    rcases List.mem_cons.mp hq with h1 | h1
    · subst h1
      show hasFile (bulkStore now
        (match bulkFile q with
         | some g =>
           setFile s g (FileContent.good (Obj.set q "updatedAt" (Val.str now)))
         | none => s) qs) fn = true
      rw [hfn]
      refine hasFile_bulkStore_mono now qs _ fn ?_
      rw [hasFile_setFile]
      simp
    · cases hx : bulkFile x with
      | none =>
        show hasFile (bulkStore now
          (match bulkFile x with
           | some g =>
             setFile s g (FileContent.good (Obj.set x "updatedAt" (Val.str now)))
           | none => s) qs) fn = true
        rw [hx]
        exact ih s h1
      | some g =>
        show hasFile (bulkStore now
          (match bulkFile x with
           | some g =>
             setFile s g (FileContent.good (Obj.set x "updatedAt" (Val.str now)))
           | none => s) qs) fn = true
        rw [hx]
        exact ih _ h1

theorem bulkStore_cons (now : String) (s : Store) (x : Obj) (qs : List Obj) :
    bulkStore now s (x :: qs)
      = bulkStore now
          (match bulkFile x with
           | some fn =>
             setFile s fn
               (FileContent.good (Obj.set x "updatedAt" (Val.str now)))
           | none => s) qs := rfl

theorem bulkStore_cons_none (now : String) (s : Store) (x : Obj)
    (qs : List Obj) (hx : bulkFile x = none) :
    bulkStore now s (x :: qs) = bulkStore now s qs := by
  rw [bulkStore_cons, hx]

theorem bulkStore_cons_some (now : String) (s : Store) (x : Obj)
    (qs : List Obj) (g : String) (hx : bulkFile x = some g) :
    bulkStore now s (x :: qs)
      = bulkStore now
          (setFile s g (FileContent.good (Obj.set x "updatedAt" (Val.str now))))
          qs := by
  rw [bulkStore_cons, hx]

theorem lookupFile_bulkStore_fresh (now : String) (qs : List Obj)
    (s : Store) (fn : String) (h : fn ∉ qs.filterMap bulkFile) :
    lookupFile (bulkStore now s qs) fn = lookupFile s fn := by
  induction qs generalizing s with
  | nil => rfl
  | cons x qs ih =>
    cases hx : bulkFile x with
    | none =>
      rw [bulkStore_cons_none now s x qs hx]
      refine ih s ?_
      intro hm
      exact h (by rw [List.filterMap_cons, hx]; exact hm)
    | some g =>
      have hne : fn ≠ g := by
        intro he
        exact h (by
          rw [List.filterMap_cons, hx, he]
          exact List.mem_cons_self _ _)
      have htl : fn ∉ qs.filterMap bulkFile := by
        intro hm
        exact h (by
          rw [List.filterMap_cons, hx]
          exact List.mem_cons_of_mem _ hm)
      rw [bulkStore_cons_some now s x qs g hx, ih _ htl,
        lookupFile_setFile_ne s g fn _ hne]

theorem lookupFile_bulkStore_of_mem (now : String) (qs : List Obj)
    (s : Store) (q : Obj) (fn : String)
    (hq : q ∈ qs) (hfn : bulkFile q = some fn)
    (hnd : (qs.filterMap bulkFile).Nodup) :
    lookupFile (bulkStore now s qs) fn
      = some (FileContent.good (Obj.set q "updatedAt" (Val.str now))) := by
  induction qs generalizing s with
  | nil => cases hq
  | cons x qs ih =>
    rcases List.mem_cons.mp hq with h1 | h1
    · subst h1
      have htl : fn ∉ qs.filterMap bulkFile := by
        rw [List.filterMap_cons, hfn] at hnd
        exact (List.nodup_cons.mp hnd).1
      rw [bulkStore_cons_some now s q qs fn hfn,
        lookupFile_bulkStore_fresh now qs _ fn htl,
        lookupFile_setFile_self]
    · have hndtl : (qs.filterMap bulkFile).Nodup := by
        rw [List.filterMap_cons] at hnd
        cases hx : bulkFile x with
        | none => rw [hx] at hnd; exact hnd
        | some g => rw [hx] at hnd; exact (List.nodup_cons.mp hnd).2
      cases hx : bulkFile x with
      | none =>
        rw [bulkStore_cons_none now s x qs hx]
        exact ih s h1 hndtl
      | some g =>
        rw [bulkStore_cons_some now s x qs g hx]
        exact ih _ h1 hndtl

theorem bulkGo_cons (wfail : String → Bool) (now : String) (q : Obj)
    (rest : List Obj) (s : Store) (c k : Nat) :
    bulkGo wfail now (q :: rest) s c k
      = (match bulkFile q with
         | none => bulkGo wfail now rest s c (k + 1)
         | some fn =>
           if hasFile s fn then bulkGo wfail now rest s c (k + 1)
           else if wfail fn then (Except.error (), s)
           else
             bulkGo wfail now rest
               (setFile s fn
                 (FileContent.good (Obj.set q "updatedAt" (Val.str now))))
               (c + 1) k) := rfl

theorem bulkGo_cons_exists (wfail : String → Bool) (now : String) (q : Obj)
    (rest : List Obj) (s : Store) (c k : Nat) (fn : String)
    (hfn : bulkFile q = some fn) (hhas : hasFile s fn = true) :
    bulkGo wfail now (q :: rest) s c k
      = bulkGo wfail now rest s c (k + 1) := by
  rw [bulkGo_cons, hfn]
  simp [hhas]

theorem bulkGo_cons_fail (wfail : String → Bool) (now : String) (q : Obj)
    (rest : List Obj) (s : Store) (c k : Nat) (fn : String)
    (hfn : bulkFile q = some fn) (hhas : hasFile s fn = false)
    (hwf : wfail fn = true) :
    bulkGo wfail now (q :: rest) s c k = (Except.error (), s) := by
  rw [bulkGo_cons, hfn]
  simp [hhas, hwf]

theorem bulkGo_cons_create (wfail : String → Bool) (now : String) (q : Obj)
    (rest : List Obj) (s : Store) (c k : Nat) (fn : String)
    (hfn : bulkFile q = some fn) (hhas : hasFile s fn = false)
    (hwf : wfail fn = false) :
    bulkGo wfail now (q :: rest) s c k
      = bulkGo wfail now rest
          (setFile s fn
            (FileContent.good (Obj.set q "updatedAt" (Val.str now))))
          (c + 1) k := by
  rw [bulkGo_cons, hfn]
  simp [hhas, hwf]

theorem bulkGo_append_created (wfail : String → Bool) (now : String)
    (tail : List Obj) (pre : List Obj) :
    ∀ (s : Store) (c k : Nat),
    (∀ q ∈ pre, (bulkFile q).isSome = true) →
    (∀ q ∈ pre, (bulkFile q).all (fun fn => !(hasFile s fn)) = true) →
    ((pre.filterMap bulkFile).Nodup) →
    (∀ q ∈ pre, (bulkFile q).all (fun fn => !(wfail fn)) = true) →
    bulkGo wfail now (pre ++ tail) s c k
      = bulkGo wfail now tail (bulkStore now s pre) (c + pre.length) k := by
  induction pre with
  | nil =>
    intro s c k _ _ _ _
    simp [bulkStore]
  | cons x pre ih =>
    intro s c k hids hfresh hnd hwf
    obtain ⟨fn, hfn⟩ :=
      Option.isSome_iff_exists.mp (hids x (List.mem_cons_self _ _))
    have hhas : hasFile s fn = false := by
      have hh := hfresh x (List.mem_cons_self _ _)
      rw [hfn] at hh
      simpa using hh
    have hwfx : wfail fn = false := by
      have hh := hwf x (List.mem_cons_self _ _)
      rw [hfn] at hh
      simpa using hh
    rw [List.cons_append,
      bulkGo_cons_create wfail now x (pre ++ tail) s c k fn hfn hhas hwfx]
    have hnd' : (pre.filterMap bulkFile).Nodup := by
      rw [List.filterMap_cons, hfn] at hnd
      exact (List.nodup_cons.mp hnd).2
    have hfresh' : ∀ q ∈ pre,
        (bulkFile q).all (fun g =>
          !(hasFile
            (setFile s fn
              (FileContent.good (Obj.set x "updatedAt" (Val.str now)))) g))
          = true := by
      intro q hq
      obtain ⟨g, hg⟩ :=
        Option.isSome_iff_exists.mp (hids q (List.mem_cons_of_mem _ hq))
      rw [hg]
      rw [Option.all_some]
      have hgs : hasFile s g = false := by
        have hh := hfresh q (List.mem_cons_of_mem _ hq)
        rw [hg] at hh
        simpa using hh
      have hne : g ≠ fn := by
        intro he
        rw [List.filterMap_cons, hfn] at hnd
        have hmem : g ∈ pre.filterMap bulkFile :=
          List.mem_filterMap.mpr ⟨q, hq, hg⟩
        rw [he] at hmem
        exact (List.nodup_cons.mp hnd).1 hmem
      rw [hasFile_setFile]
      simp [hgs, hne]
    rw [ih _ (c + 1) k (fun q hq => hids q (List.mem_cons_of_mem _ hq))
      hfresh' hnd' (fun q hq => hwf q (List.mem_cons_of_mem _ hq))]
    rw [bulkStore_cons_some now s x pre fn hfn]
    have harith : c + 1 + pre.length = c + (x :: pre).length := by
      simp only [List.length_cons]
      omega
    rw [harith]

theorem bulkGo_skip_all (wfail : String → Bool) (now : String)
    (qs : List Obj) :
    ∀ (s : Store) (c k : Nat),
    (∀ q ∈ qs, (bulkFile q).isSome = true) →
    (∀ q ∈ qs, (bulkFile q).all (fun fn => hasFile s fn) = true) →
    bulkGo wfail now qs s c k = (Except.ok (c, k + qs.length), s) := by
  induction qs with
  | nil =>
    intro s c k _ _
    simp [bulkGo]
  | cons x qs ih =>
    intro s c k hids hhas
    obtain ⟨fn, hfn⟩ :=
      Option.isSome_iff_exists.mp (hids x (List.mem_cons_self _ _))
    have hx : hasFile s fn = true := by
      have hh := hhas x (List.mem_cons_self _ _)
      rw [hfn] at hh
      simpa using hh
    rw [bulkGo_cons_exists wfail now x qs s c k fn hfn hx,
      ih s c (k + 1) (fun q hq => hids q (List.mem_cons_of_mem _ hq))
        (fun q hq => hhas q (List.mem_cons_of_mem _ hq))]
    have harith : k + 1 + qs.length = k + (x :: qs).length := by
      simp only [List.length_cons]
      omega
    rw [harith]

/-- C6 counterexample: importing a sequence that contains the same record
(same identifier) twice, none pre-existing, yields created = 1 and
skipped = 1 on the first import, not created = N = 2, skipped = 0. -/
theorem bulk_duplicate_seq_cex :
    (bulkImport (fun _ => false) "T"
      [[("_id", Val.str "a")], [("_id", Val.str "a")]] []).1
      = Except.ok (1, 1) ∧
    (Except.ok (1, 1) : Except Unit (Nat × Nat)) ≠ Except.ok (2, 0) := by
  constructor
  · rfl
  · intro h
    injection h with h
    exact absurd h (by decide)

/-- C6 (amended): a record lacking a truthy identifier or whose file
already exists is skipped (never overwritten); and for a sequence of
records with pairwise-distinct truthy identifiers, none pre-existing,
the first import yields (created, skipped) = (N, 0) and re-importing the
same sequence yields (0, N) leaving the store unchanged. -/
theorem bulk_twice_idempotent (now now2 : String) (qs : List Obj)
    (s s1 : Store) (r1 : Except Unit (Nat × Nat))
    (hids : ∀ q ∈ qs, (bulkFile q).isSome = true)
    (hfresh : ∀ q ∈ qs, (bulkFile q).all (fun fn => !(hasFile s fn)) = true)
    (hnd : (qs.filterMap bulkFile).Nodup)
    (h1 : bulkImport (fun _ => false) now qs s = (r1, s1)) :
    r1 = Except.ok (qs.length, 0) ∧
    bulkImport (fun _ => false) now2 qs s1
      = (Except.ok (0, qs.length), s1) := by
  have hwf : ∀ q ∈ qs,
      (bulkFile q).all (fun fn => !((fun _ : String => false) fn)) = true := by
    intro q hq
    cases bulkFile q <;> rfl
  have hfirst :=
    bulkGo_append_created (fun _ => false) now [] qs s 0 0 hids hfresh hnd hwf
  rw [List.append_nil] at hfirst
  unfold bulkImport at h1
  rw [hfirst] at h1
  have hred : bulkGo (fun _ => false) now [] (bulkStore now s qs)
      (0 + qs.length) 0
      = (Except.ok (0 + qs.length, 0), bulkStore now s qs) := rfl
  rw [hred] at h1
  rw [Prod.mk.injEq] at h1
  obtain ⟨hr, hs⟩ := h1
  constructor
  · rw [← hr]
    simp
  · have hhas1 : ∀ q ∈ qs,
        (bulkFile q).all (fun fn => hasFile s1 fn) = true := by
      intro q hq
      obtain ⟨fn, hfn⟩ := Option.isSome_iff_exists.mp (hids q hq)
      rw [hfn, Option.all_some, ← hs]
      exact hasFile_bulkStore_of_mem now qs s q fn hq hfn
    have h2 := bulkGo_skip_all (fun _ => false) now2 qs s1 0 0 hids hhas1
    unfold bulkImport
    rw [h2]
    simp

/-- C6 witness: two records with distinct identifiers import as (2, 0)
and re-import as (0, 2) against the unchanged store. -/
theorem bulk_twice_idempotent_w :
    bulkImport (fun _ => false) "T"
      [[("_id", Val.str "a")], [("_id", Val.str "b")]] []
      = (Except.ok (2, 0),
         [("a.json", FileContent.good
            [("_id", Val.str "a"), ("updatedAt", Val.str "T")]),
          ("b.json", FileContent.good
            [("_id", Val.str "b"), ("updatedAt", Val.str "T")])]) ∧
    bulkImport (fun _ => false) "U"
      [[("_id", Val.str "a")], [("_id", Val.str "b")]]
      [("a.json", FileContent.good
        [("_id", Val.str "a"), ("updatedAt", Val.str "T")]),
       ("b.json", FileContent.good
        [("_id", Val.str "b"), ("updatedAt", Val.str "T")])]
      = (Except.ok (0, 2),
         [("a.json", FileContent.good
            [("_id", Val.str "a"), ("updatedAt", Val.str "T")]),
          ("b.json", FileContent.good
            [("_id", Val.str "b"), ("updatedAt", Val.str "T")])]) := by
  have h := bulk_twice_idempotent "T" "U"
    [[("_id", Val.str "a")], [("_id", Val.str "b")]] []
    [("a.json", FileContent.good
      [("_id", Val.str "a"), ("updatedAt", Val.str "T")]),
     ("b.json", FileContent.good
      [("_id", Val.str "b"), ("updatedAt", Val.str "T")])]
    (Except.ok (2, 0)) (by decide) (by decide) (by decide) rfl
  exact ⟨rfl, h.2⟩

/-- C10: bulk import is not atomic: a write failure at record k makes the
whole call answer an Internal error with no counts, while every record
created before k stays on disk, stamped with `updatedAt` only (its
`createdAt` is exactly whatever the input record carried). -/
theorem bulk_partial_failure (now : String) (wfail : String → Bool)
    (pre rest : List Obj) (q p : Obj) (fnq fn : String)
    (s s1 : Store) (r : Except Unit (Nat × Nat))
    (hids : ∀ x ∈ pre, (bulkFile x).isSome = true)
    (hfresh : ∀ x ∈ pre, (bulkFile x).all (fun g => !(hasFile s g)) = true)
    (hnd : (pre.filterMap bulkFile).Nodup)
    (hwf : ∀ x ∈ pre, (bulkFile x).all (fun g => !(wfail g)) = true)
    (hq : bulkFile q = some fnq)
    (hqfresh : hasFile (bulkStore now s pre) fnq = false)
    (hqfail : wfail fnq = true)
    (hp : p ∈ pre) (hfn : bulkFile p = some fn)
    (h : bulkImport wfail now (pre ++ q :: rest) s = (r, s1)) :
    r = Except.error () ∧
    s1 = bulkStore now s pre ∧
    lookupFile s1 fn
      = some (FileContent.good (Obj.set p "updatedAt" (Val.str now))) ∧
    Obj.get (Obj.set p "updatedAt" (Val.str now)) "createdAt"
      = Obj.get p "createdAt" := by
  unfold bulkImport at h
  rw [bulkGo_append_created wfail now (q :: rest) pre s 0 0 hids hfresh hnd
      hwf,
    bulkGo_cons_fail wfail now q rest (bulkStore now s pre)
      (0 + pre.length) 0 fnq hq hqfresh hqfail] at h
  rw [Prod.mk.injEq] at h
  obtain ⟨hr, hs⟩ := h
  refine ⟨hr.symm, hs.symm, ?_,
    Obj.get_set_ne p "updatedAt" "createdAt" (Val.str now) (by decide)⟩
  rw [← hs]
  exact lookupFile_bulkStore_of_mem now pre s p fn hp hfn hnd

/-- C10 witness: with the write of `b.json` failing, the call errors, the
earlier record `a.json` remains with only its `updatedAt` stamp, and no
`createdAt` was added. -/
theorem bulk_partial_failure_w :
    bulkImport (fun g => g == "b.json") "T"
      [[("_id", Val.str "a")], [("_id", Val.str "b")], [("_id", Val.str "c")]]
      []
      = (Except.error (),
         [("a.json", FileContent.good
            [("_id", Val.str "a"), ("updatedAt", Val.str "T")])]) ∧
    lookupFile
      [("a.json", FileContent.good
        [("_id", Val.str "a"), ("updatedAt", Val.str "T")])] "a.json"
      = some (FileContent.good
          (Obj.set [("_id", Val.str "a")] "updatedAt" (Val.str "T"))) ∧
    Obj.get (Obj.set [("_id", Val.str "a")] "updatedAt" (Val.str "T"))
        "createdAt"
      = Obj.get [("_id", Val.str "a")] "createdAt" := by
  have h := bulk_partial_failure "T" (fun g => g == "b.json")
    [[("_id", Val.str "a")]] [[("_id", Val.str "c")]]
    [("_id", Val.str "b")] [("_id", Val.str "a")] "b.json" "a.json"
    []
    [("a.json", FileContent.good
      [("_id", Val.str "a"), ("updatedAt", Val.str "T")])]
    (Except.error ())
    (by decide) (by decide) (by decide) (by decide) rfl (by decide) rfl
    (List.mem_singleton.mpr rfl) rfl rfl
  exact ⟨rfl, h.2.2.1, h.2.2.2⟩

